import Mathlib

/-!
Verification of the core logic of `pz_mod_info_tool.py` (PZ Mod Info Tool):
the `mod.info` metadata parser (`_read_mod_info`), the search filter
(`_apply_filter`), the column sort (`_sort_by`) and the CSV export
(`export_csv`), shallowly embedded over Lean lists and strings.
-/

namespace PZ

/-! ### Python string primitives -/

/-- ASCII whitespace characters recognised by Python `str.strip()` with no
argument (the characters relevant to text lines). -/
def isPyWs (c : Char) : Bool :=
  c = ' ' || c = '\t' || c = '\n' || c = '\r' || c = '\x0b' || c = '\x0c'

/-- Remove all leading and trailing characters satisfying `p`
(the semantics of Python `str.strip(chars)` on a character class). -/
def listStrip (p : Char → Bool) (cs : List Char) : List Char :=
  ((cs.dropWhile p).reverse.dropWhile p).reverse

/-- Python `s.strip()`: remove leading and trailing whitespace. -/
def pyStripWS (s : String) : String :=
  String.mk (listStrip isPyWs s.toList)

/-- Python `s.strip(c)` for a single character `c`: remove ALL leading and
trailing occurrences of `c`, not just one layer. -/
def pyStripChar (c : Char) (s : String) : String :=
  String.mk (listStrip (· = c) s.toList)

/-- Python `s.lower()` restricted to ASCII letters. -/
def pyLower (s : String) : String :=
  String.mk (s.toList.map Char.toLower)

/-- Python `needle in haystack` substring test. -/
def pyIn (needle hay : String) : Bool :=
  decide (needle.toList <:+: hay.toList)

/-! ### Python `int()` parsing -/

def isDigitChar (c : Char) : Bool := '0' ≤ c && c ≤ '9'

def digitVal (c : Char) : Nat := c.toNat - 48

/-- Digits with optional single underscores between digit groups
(`int("1_0") = 10`, `int("1__0")` and `int("1_")` raise). The first
character has already been checked to be a digit. -/
def pyDigitsAux : Nat → List Char → Option Nat
  | acc, [] => some acc
  | acc, c :: cs =>
    if isDigitChar c then pyDigitsAux (10 * acc + digitVal c) cs
    else if c = '_' then
      match cs with
      | [] => none
      | d :: cs₂ =>
        if isDigitChar d then pyDigitsAux (10 * acc + digitVal d) cs₂ else none
    else none

def pyDigits : List Char → Option Nat
  | [] => none
  | c :: cs => if isDigitChar c then pyDigitsAux (digitVal c) cs else none

/-- Python `int(s)` on a decimal string: surrounding whitespace stripped,
optional sign, ASCII digits with optional single internal underscores;
`none` models a raised `ValueError`. -/
def pyInt (s : String) : Option Int :=
  match listStrip isPyWs s.toList with
  | '+' :: cs => (pyDigits cs).map (fun n => (n : Int))
  | '-' :: cs => (pyDigits cs).map (fun n => -(n : Int))
  | cs => (pyDigits cs).map (fun n => (n : Int))

/-! ### Data model -/

/-- A parsed mod record: the dictionary with keys `name`, `modid` and
`workshopid` built by `_read_mod_info`, also used for the displayed table
rows `(name, modid, workshopid)`. -/
structure Mod where
  name : String
  modid : String
  workshopid : String
deriving DecidableEq, Repr

/-! ### Metadata parser (`_read_mod_info`) -/

/-- The condition under which `_read_mod_info` skips a line after stripping:
blank, no `=` separator, or a `#`/`//` comment. -/
def lineIgnored (raw : String) : Bool :=
  let cs := listStrip isPyWs raw.toList
  cs.isEmpty || !cs.contains '=' || cs.take 1 = ['#'] || cs.take 2 = ['/', '/']

/-- Processing of one non-ignored line in `_read_mod_info`:
`key, value = line.split("=", 1); key = key.strip().lower();
value = value.strip().strip(quote).strip(apostrophe)`.
Returns `none` exactly for ignored lines. -/
def processLine (raw : String) : Option (String × String) :=
  if lineIgnored raw then none
  else
    let cs := listStrip isPyWs raw.toList
    let key := String.mk ((listStrip isPyWs (cs.takeWhile (· ≠ '='))).map Char.toLower)
    let val := String.mk
      (listStrip (· = '\'') (listStrip (· = '"')
        (listStrip isPyWs ((cs.dropWhile (· ≠ '=')).tail))))
    some (key, val)

/-- `value.split(";")[0].strip()`: the segment of the (quote-stripped) value
before the first `;`, whitespace-trimmed. -/
def modidFromValue (v : String) : String :=
  String.mk (listStrip isPyWs (v.toList.takeWhile (· ≠ ';')))

/-- The state update of `_read_mod_info` for one non-ignored line: the
`name` guard (`key == "name" and not name and value`) and the `id` guard
(`key == "id" and not modid and value`, keeping the first `;`-segment). -/
def stepLine (name modid : String) (kv : String × String) : String × String :=
  (if kv.1 = "name" ∧ name = "" ∧ kv.2 ≠ "" then kv.2 else name,
   if kv.1 = "id" ∧ modid = "" ∧ kv.2 ≠ "" then modidFromValue kv.2 else modid)

/-- The line-scanning loop of `_read_mod_info`. The state is the pair
`(name, modid)`, with the empty string standing for Python `None` (both are
only ever assigned non-empty values, and Python truthiness identifies `None`
and the empty string). The loop breaks as soon as both fields are
non-empty, checked after each non-ignored line exactly as in the source. -/
def parseLines : String → String → List String → String × String
  | name, modid, [] => (name, modid)
  | name, modid, raw :: rest =>
    match processLine raw with
    | none => parseLines name modid rest
    | some kv =>
      let nm := stepLine name modid kv
      if nm.1 ≠ "" ∧ nm.2 ≠ "" then nm else parseLines nm.1 nm.2 rest

/-- `_read_mod_info` on the decoded lines of a `mod.info` file: at most the
first 500 lines are processed; a record is returned only when both `name`
and `modid` were captured. -/
def readModInfo (lines : List String) (workshopid : String) : Option Mod :=
  let nm := parseLines "" "" (lines.take 500)
  if nm.1 ≠ "" ∧ nm.2 ≠ "" then some ⟨nm.1, nm.2, workshopid⟩ else none

/-- The name a single line contributes: `some v` when the line is processed
with key `name` and a non-empty value. -/
def lineName (raw : String) : Option String :=
  match processLine raw with
  | some (k, v) => if k = "name" ∧ v ≠ "" then some v else none
  | none => none

/-- The modid a single line can successfully contribute: `some` of the
trimmed first `;`-segment when the line has key `id`, a non-empty value and
a non-empty first segment. -/
def lineModid (raw : String) : Option String :=
  match processLine raw with
  | some (k, v) =>
    if k = "id" ∧ v ≠ "" ∧ modidFromValue v ≠ "" then some (modidFromValue v) else none
  | none => none

/-- The raw (quote-stripped, untrimmed-segment) value of an `id` line with a
non-empty value — the quantity the specification's claim is phrased over. -/
def lineIdVal (raw : String) : Option String :=
  match processLine raw with
  | some (k, v) => if k = "id" ∧ v ≠ "" then some v else none
  | none => none

/-! ### Filter (`_apply_filter`) -/

/-- The normalised query: `self.search_var.get().lower().strip()`. -/
def normQuery (search : String) : String := pyStripWS (pyLower search)

/-- The per-record filter predicate of `_apply_filter`:
`not query or query in name.lower() or query in modid.lower() or
query in workshopid.lower()`. -/
def modMatches (q : String) (m : Mod) : Bool :=
  q = "" || pyIn q (pyLower m.name) || pyIn q (pyLower m.modid) || pyIn q (pyLower m.workshopid)

/-- The filtered row list built by `_apply_filter` (the rows inserted into
the table, in scan order). -/
def applyFilter (search : String) (mods : List Mod) : List Mod :=
  mods.filter (modMatches (normQuery search))

/-! ### Application state and sorting (`_sort_by`) -/

/-- The three table columns. -/
inductive Col
  | name
  | modid
  | workshopid
deriving DecidableEq, Repr

/-- The remembered per-column sort directions: the `_sort_dir` dict, with
`false` standing for an absent key (`_sort_dir.get(col, False)`). -/
structure SortDirs where
  name : Bool
  modid : Bool
  workshopid : Bool
deriving DecidableEq, Repr

def SortDirs.get (d : SortDirs) : Col → Bool
  | .name => d.name
  | .modid => d.modid
  | .workshopid => d.workshopid

def SortDirs.set (d : SortDirs) : Col → Bool → SortDirs
  | .name, b => { d with name := b }
  | .modid, b => { d with modid := b }
  | .workshopid, b => { d with workshopid := b }

/-- The in-memory state the table operations act on: the scanned record
list `self.mods` (scan order), the search text, the currently displayed
rows (the tree items) and the remembered sort directions. -/
structure AppState where
  mods : List Mod
  search : String
  rows : List Mod
  dirs : SortDirs
deriving DecidableEq, Repr

/-- A sort key produced by `sort_key`: a Python `int` or a Python `str`. -/
inductive SKey
  | int (n : Int)
  | str (s : String)
deriving DecidableEq, Repr

/-- The `sort_key` function of `_sort_by`: for the WorkshopID column,
`int(value)` with fallback to `value.lower()`; lower-cased string for the
other columns. -/
def sortKey (col : Col) (r : Mod) : SKey :=
  match col with
  | .workshopid =>
    match pyInt r.workshopid with
    | some n => .int n
    | none => .str (pyLower r.workshopid)
  | .name => .str (pyLower r.name)
  | .modid => .str (pyLower r.modid)

/-- Python `a < b` on lists of code points: lexicographic comparison. -/
def listLt : List Char → List Char → Bool
  | _, [] => false
  | [], _ :: _ => true
  | a :: as, b :: bs =>
    if a.toNat < b.toNat then true
    else if b.toNat < a.toNat then false
    else listLt as bs

/-- Python `a < b` on strings: lexicographic by code point. -/
def pyStrLt (a b : String) : Bool := listLt a.toList b.toList

/-- Python `a < b` on sort keys: well-defined between two ints or two
strings; comparing an int with a str raises `TypeError`, modelled as
`Except.error`. -/
def sKeyLt : SKey → SKey → Except Unit Bool
  | .int a, .int b => .ok (decide (a < b))
  | .str a, .str b => .ok (pyStrLt a b)
  | _, _ => .error ()

/-- Stable fallible insertion of `a` into the already-sorted list: `a` is
placed before the first element it need not follow. `rev` selects the
descending comparison. A `TypeError` during a comparison aborts the sort. -/
def insertE (rev : Bool) (key : Mod → SKey) (a : Mod) : List Mod → Except Unit (List Mod)
  | [] => .ok [a]
  | b :: l =>
    match (if rev then sKeyLt (key a) (key b) else sKeyLt (key b) (key a)) with
    | .error e => .error e
    | .ok true =>
      match insertE rev key a l with
      | .error e => .error e
      | .ok l₂ => .ok (b :: l₂)
    | .ok false => .ok (a :: b :: l)

/-- Fallible stable sort modelling `items.sort(key=sort_key, reverse=r)`:
on success the output is the unique stable reordering (Python's sort is
stable for both directions); mixed int/str keys yield `TypeError`. -/
def sortE (rev : Bool) (key : Mod → SKey) : List Mod → Except Unit (List Mod)
  | [] => .ok []
  | a :: l =>
    match sortE rev key l with
    | .error e => .error e
    | .ok l₂ => insertE rev key a l₂

/-- `_sort_by(col)`: returns unchanged state when no rows are displayed;
otherwise sorts the displayed rows by the column key with the remembered
direction and toggles that column's direction. An `Except.error` models the
`TypeError` raised out of `items.sort` for mixed keys, in which case neither
the tree order nor `_sort_dir` has been updated. -/
def sortBy (col : Col) (st : AppState) : Except Unit AppState :=
  if st.rows = [] then .ok st
  else
    let rev := st.dirs.get col
    match sortE rev (sortKey col) st.rows with
    | .error e => .error e
    | .ok rows₂ => .ok { st with rows := rows₂, dirs := st.dirs.set col (!rev) }

/-! ### CSV export (`export_csv`) -/

/-- The per-record filter predicate transcribed from `export_csv`
(lines 854-860 of the source), kept separate from `modMatches` so their
agreement is a theorem, not a definition. -/
def exportMatches (q : String) (m : Mod) : Bool :=
  q = "" || pyIn q (pyLower m.name) || pyIn q (pyLower m.modid) || pyIn q (pyLower m.workshopid)

/-- The `filtered_mods` list computed inside `export_csv`. -/
def exportFilteredList (search : String) (mods : List Mod) : List Mod :=
  mods.filter (exportMatches (pyStripWS (pyLower search)))

/-- The row sequence `export_csv` writes: `none` when `self.mods` is empty
(the export aborts with a notice); otherwise the header row followed by one
cell row per filtered record. -/
def exportCsv (st : AppState) : Option (List (List String)) :=
  if st.mods = [] then none
  else
    some (["Name", "ModID", "WorkshopID"] ::
      (exportFilteredList st.search st.mods).map (fun m => [m.name, m.modid, m.workshopid]))

/-! ### Parser lemmas -/
/-! ### Parser lemmas -/

theorem stepLine_fst_of_ne (n m : String) (kv : String × String) (hn : n ≠ "") :
    (stepLine n m kv).1 = n := by
  show (if kv.1 = "name" ∧ n = "" ∧ kv.2 ≠ "" then kv.2 else n) = n
  exact if_neg fun hc => hn hc.2.1

theorem stepLine_snd_of_ne (n m : String) (kv : String × String) (hm : m ≠ "") :
    (stepLine n m kv).2 = m := by
  show (if kv.1 = "id" ∧ m = "" ∧ kv.2 ≠ "" then modidFromValue kv.2 else m) = m
  exact if_neg fun hc => hm hc.2.1

theorem stepLine_fst_set (m k v : String) (hq : k = "name" ∧ v ≠ "") :
    (stepLine "" m (k, v)).1 = v := by
  show (if k = "name" ∧ ("" : String) = "" ∧ v ≠ "" then v else "") = v
  exact if_pos ⟨hq.1, rfl, hq.2⟩

theorem stepLine_fst_keep (n m k v : String) (hq : ¬(k = "name" ∧ v ≠ "")) :
    (stepLine n m (k, v)).1 = n := by
  show (if k = "name" ∧ n = "" ∧ v ≠ "" then v else n) = n
  exact if_neg fun hc => hq ⟨hc.1, hc.2.2⟩

theorem stepLine_snd_set (n k v : String) (hq : k = "id" ∧ v ≠ "") :
    (stepLine n "" (k, v)).2 = modidFromValue v := by
  show (if k = "id" ∧ ("" : String) = "" ∧ v ≠ "" then modidFromValue v else "") = modidFromValue v
  exact if_pos ⟨hq.1, rfl, hq.2⟩

theorem stepLine_snd_keep (n m k v : String) (hq : ¬(k = "id" ∧ v ≠ "")) :
    (stepLine n m (k, v)).2 = m := by
  show (if k = "id" ∧ m = "" ∧ v ≠ "" then modidFromValue v else m) = m
  exact if_neg fun hc => hq ⟨hc.1, hc.2.2⟩

/-- Once both fields are captured the scanning loop never changes them:
all further lines are ignored or leave the state intact, and the loop
breaks at the first non-ignored one. -/
theorem parseLines_complete (ls : List String) :
    ∀ n m, n ≠ "" → m ≠ "" → parseLines n m ls = (n, m) := by
  induction ls with
  | nil => intro n m _ _; rfl
  | cons raw rest ih =>
    intro n m hn hm
    unfold parseLines
    cases hp : processLine raw with
    | none =>
      simp only [hp]
      exact ih n m hn hm
    | some kv =>
      obtain ⟨k, v⟩ := kv
      simp only [hp]
      have h1 : (stepLine n m (k, v)).1 = n := stepLine_fst_of_ne n m (k, v) hn
      have h2 : (stepLine n m (k, v)).2 = m := stepLine_snd_of_ne n m (k, v) hm
      have hC : (stepLine n m (k, v)).1 ≠ "" ∧ (stepLine n m (k, v)).2 ≠ "" := by
        rw [h1, h2]; exact ⟨hn, hm⟩
      rw [if_pos hC]
      calc stepLine n m (k, v)
          = ((stepLine n m (k, v)).1, (stepLine n m (k, v)).2) := rfl
        _ = (n, m) := by rw [h1, h2]

/-- Characterisation of the captured modid: if the incoming modid is
already set it is kept, otherwise the result is the first successful
contribution among the lines (empty when there is none). -/
theorem parseLines_modid (ls : List String) :
    ∀ n m, (parseLines n m ls).2 =
      if m = "" then ((ls.filterMap lineModid).head?).getD "" else m := by
  induction ls with
  | nil =>
    intro n m
    by_cases hm : m = "" <;> simp [parseLines, hm]
  | cons raw rest ih =>
    intro n m
    unfold parseLines
    cases hp : processLine raw with
    | none =>
      have hl : lineModid raw = none := by simp [lineModid, hp]
      simp only [hp, ih, List.filterMap_cons, hl]
    | some kv =>
      obtain ⟨k, v⟩ := kv
      simp only [hp]
      by_cases hm : m = ""
      · subst hm
        by_cases hq : k = "id" ∧ v ≠ ""
        · by_cases hs : modidFromValue v = ""
          · have hl : lineModid raw = none := by
              simp only [lineModid, hp]
              exact if_neg fun hc => hc.2.2 hs
            have h2 : (stepLine n "" (k, v)).2 = "" := by
              rw [stepLine_snd_set n k v hq]; exact hs
            have hC : ¬((stepLine n "" (k, v)).1 ≠ "" ∧ (stepLine n "" (k, v)).2 ≠ "") :=
              fun hc => hc.2 h2
            rw [if_neg hC, h2, ih]
            simp [List.filterMap_cons, hl]
          · have hl : lineModid raw = some (modidFromValue v) := by
              simp only [lineModid, hp]
              exact if_pos ⟨hq.1, hq.2, hs⟩
            have h2 : (stepLine n "" (k, v)).2 = modidFromValue v :=
              stepLine_snd_set n k v hq
            by_cases hC : (stepLine n "" (k, v)).1 ≠ "" ∧ (stepLine n "" (k, v)).2 ≠ ""
            · rw [if_pos hC, h2]
              simp [List.filterMap_cons, hl]
            · rw [if_neg hC, h2, ih]
              simp [List.filterMap_cons, hl, hs]
        · have hl : lineModid raw = none := by
            simp only [lineModid, hp]
            exact if_neg fun hc => hq ⟨hc.1, hc.2.1⟩
          have h2 : (stepLine n "" (k, v)).2 = "" := stepLine_snd_keep n "" k v hq
          have hC : ¬((stepLine n "" (k, v)).1 ≠ "" ∧ (stepLine n "" (k, v)).2 ≠ "") :=
            fun hc => hc.2 h2
          rw [if_neg hC, h2, ih]
          simp [List.filterMap_cons, hl]
      · have h2 : (stepLine n m (k, v)).2 = m := stepLine_snd_of_ne n m (k, v) hm
        rw [if_neg hm]
        by_cases hC : (stepLine n m (k, v)).1 ≠ "" ∧ (stepLine n m (k, v)).2 ≠ ""
        · rw [if_pos hC, h2]
        · rw [if_neg hC, h2, ih]
          exact if_neg hm

/-- Characterisation of the captured name: if the incoming name is already
set it is kept, otherwise the result is the value of the first line with
key `name` and a non-empty value. -/
theorem parseLines_name (ls : List String) :
    ∀ n m, (parseLines n m ls).1 =
      if n = "" then ((ls.filterMap lineName).head?).getD "" else n := by
  induction ls with
  | nil =>
    intro n m
    by_cases hn : n = "" <;> simp [parseLines, hn]
  | cons raw rest ih =>
    intro n m
    unfold parseLines
    cases hp : processLine raw with
    | none =>
      have hl : lineName raw = none := by simp [lineName, hp]
      simp only [hp, ih, List.filterMap_cons, hl]
    | some kv =>
      obtain ⟨k, v⟩ := kv
      simp only [hp]
      by_cases hn : n = ""
      · subst hn
        by_cases hq : k = "name" ∧ v ≠ ""
        · have hl : lineName raw = some v := by
            simp only [lineName, hp]
            exact if_pos hq
          have h1 : (stepLine "" m (k, v)).1 = v := stepLine_fst_set m k v hq
          by_cases hC : (stepLine "" m (k, v)).1 ≠ "" ∧ (stepLine "" m (k, v)).2 ≠ ""
          · rw [if_pos hC, h1]
            simp [List.filterMap_cons, hl]
          · rw [if_neg hC, h1, ih]
            simp [List.filterMap_cons, hl, hq.2]
        · have hl : lineName raw = none := by
            simp only [lineName, hp]
            exact if_neg hq
          have h1 : (stepLine "" m (k, v)).1 = "" := stepLine_fst_keep "" m k v hq
          have hC : ¬((stepLine "" m (k, v)).1 ≠ "" ∧ (stepLine "" m (k, v)).2 ≠ "") :=
            fun hc => hc.1 h1
          rw [if_neg hC, h1, ih]
          simp [List.filterMap_cons, hl]
      · have h1 : (stepLine n m (k, v)).1 = n := stepLine_fst_of_ne n m (k, v) hn
        rw [if_neg hn]
        by_cases hC : (stepLine n m (k, v)).1 ≠ "" ∧ (stepLine n m (k, v)).2 ≠ ""
        · rw [if_pos hC, h1]
        · rw [if_neg hC, h1, ih]
          exact if_neg hn

/-- Appending further lines after the loop has captured both fields does
not change the result (the loop has already broken). -/
theorem parseLines_append (pre suf : List String) :
    ∀ n m, (parseLines n m pre).1 ≠ "" → (parseLines n m pre).2 ≠ "" →
      parseLines n m (pre ++ suf) = parseLines n m pre := by
  induction pre with
  | nil =>
    intro n m hn hm
    simpa [parseLines] using parseLines_complete suf n m hn hm
  | cons raw rest ih =>
    intro n m hn hm
    rw [List.cons_append]
    unfold parseLines at hn hm ⊢
    cases hp : processLine raw with
    | none =>
      simp only [hp] at hn hm ⊢
      exact ih n m hn hm
    | some kv =>
      obtain ⟨k, v⟩ := kv
      simp only [hp] at hn hm ⊢
      by_cases hC : (stepLine n m (k, v)).1 ≠ "" ∧ (stepLine n m (k, v)).2 ≠ ""
      · rw [if_pos hC, if_pos hC]
      · rw [if_neg hC] at hn hm
        rw [if_neg hC, if_neg hC]
        exact ih _ _ hn hm

/-! ### C1: modid from the first id line -/

/-- The modid predicted by the claim's wording: the first `;`-delimited
segment (trimmed) of the value of the FIRST `id` line with a non-empty
value, all later `id` occurrences ignored. -/
def claimModid (lines : List String) : Option String :=
  ((lines.filterMap lineIdVal).head?).map modidFromValue

/-- The metadata lines refuting C1: the first `id` line has the non-empty
value `;x`, whose first segment trims to the empty string. -/
def c1Lines : List String := ["name=A", "id=;x", "id=y"]

/-- C1 counterexample: the parser returns modid `y` from the later `id`
line, while the claim predicts the first segment of the first non-empty
`id` value, which is empty — the later occurrence is NOT ignored. -/
theorem c1_counterexample :
    (readModInfo c1Lines "w").map Mod.modid = some "y" ∧
      claimModid c1Lines = some "" ∧ ("y" : String) ≠ "" :=
  ⟨by decide, by decide, by decide⟩

/-- C1 (amended): whenever the parser returns a record, its modid is the
trimmed first `;`-segment of the first `id` line whose value is non-empty
AND whose first segment is non-empty after trimming; `id` lines whose first
segment trims to empty do not settle the field, so later occurrences are
then still considered. -/
theorem c1_modid_first_success (lines : List String) (wid : String) (m : Mod)
    (h : readModInfo lines wid = some m) :
    ((lines.take 500).filterMap lineModid).head? = some m.modid := by
  simp only [readModInfo] at h
  split at h
  · next hC =>
    injection h with h
    subst h
    show ((lines.take 500).filterMap lineModid).head? =
      some (parseLines "" "" (lines.take 500)).2
    have pm := parseLines_modid (lines.take 500) "" ""
    rw [if_pos rfl] at pm
    cases hh : ((lines.take 500).filterMap lineModid).head? with
    | none => exact absurd (by rw [pm, hh]; rfl) hC.2
    | some s => rw [pm, hh]; rfl
  · next => exact Option.noConfusion h

/-- Witness for the amended C1 at a concrete file. -/
theorem c1_modid_first_success_witness :
    (((["name=A", "id=B;C"] : List String).take 500).filterMap lineModid).head? = some "B" :=
  c1_modid_first_success ["name=A", "id=B;C"] "w" ⟨"A", "B", "w"⟩ (by decide)

/-! ### C2: a record requires both fields -/

/-- C2: if no processed line contributes a non-empty name, or none
contributes a non-empty modid, the parser returns no record; and whenever a
record is returned, both of its fields were extracted from some processed
line. -/
theorem c2_record_requires_both (lines : List String) (wid : String) :
    ((∀ l ∈ lines.take 500, lineName l = none) ∨
        (∀ l ∈ lines.take 500, lineModid l = none) →
      readModInfo lines wid = none) ∧
    (∀ m, readModInfo lines wid = some m →
      (∃ l ∈ lines.take 500, lineName l = some m.name) ∧
      (∃ l ∈ lines.take 500, lineModid l = some m.modid)) := by
  constructor
  · intro h
    simp only [readModInfo]
    rw [if_neg]
    intro hC
    cases h with
    | inl h =>
      have he : (lines.take 500).filterMap lineName = [] := List.filterMap_eq_nil_iff.mpr h
      have pn := parseLines_name (lines.take 500) "" ""
      rw [if_pos rfl, he] at pn
      exact hC.1 (by rw [pn]; rfl)
    | inr h =>
      have he : (lines.take 500).filterMap lineModid = [] := List.filterMap_eq_nil_iff.mpr h
      have pm := parseLines_modid (lines.take 500) "" ""
      rw [if_pos rfl, he] at pm
      exact hC.2 (by rw [pm]; rfl)
  · intro m hm
    simp only [readModInfo] at hm
    split at hm
    · next hC =>
      injection hm with hm
      subst hm
      constructor
      · have pn := parseLines_name (lines.take 500) "" ""
        rw [if_pos rfl] at pn
        cases hh : ((lines.take 500).filterMap lineName).head? with
        | none => exact absurd (by rw [pn, hh]; rfl) hC.1
        | some s =>
          have hmem : s ∈ (lines.take 500).filterMap lineName :=
            List.mem_of_mem_head? (by rw [hh]; rfl)
          obtain ⟨l, hl, hfl⟩ := List.mem_filterMap.mp hmem
          refine ⟨l, hl, ?_⟩
          rw [hfl]
          show some s = some (parseLines "" "" (lines.take 500)).1
          rw [pn, hh]
          rfl
      · have pm := parseLines_modid (lines.take 500) "" ""
        rw [if_pos rfl] at pm
        cases hh : ((lines.take 500).filterMap lineModid).head? with
        | none => exact absurd (by rw [pm, hh]; rfl) hC.2
        | some s =>
          have hmem : s ∈ (lines.take 500).filterMap lineModid :=
            List.mem_of_mem_head? (by rw [hh]; rfl)
          obtain ⟨l, hl, hfl⟩ := List.mem_filterMap.mp hmem
          refine ⟨l, hl, ?_⟩
          rw [hfl]
          show some s = some (parseLines "" "" (lines.take 500)).2
          rw [pm, hh]
          rfl
    · next => exact Option.noConfusion hm

/-- Witness for C2: a file missing `id` yields no record, and on a complete
file the returned fields trace back to contributing lines. -/
theorem c2_record_requires_both_witness :
    readModInfo ["name=A"] "w" = none ∧
      (∃ l ∈ (["name=A", "id=B"] : List String).take 500, lineName l = some "A") :=
  ⟨(c2_record_requires_both ["name=A"] "w").1 (Or.inr (by decide)),
    ((c2_record_requires_both ["name=A", "id=B"] "w").2 ⟨"A", "B", "w"⟩ (by decide)).1⟩

/-! ### C3: line splitting and quote stripping -/

/-- The value processing the claim describes: trim the text after the first
`=`, then strip exactly ONE layer of surrounding matching single or double
quotes. -/
def claimStripOne (s : String) : String :=
  match listStrip isPyWs s.toList with
  | [] => ""
  | c :: rest =>
    if (c = '"' ∨ c = '\'') ∧ rest ≠ [] ∧ rest.getLast? = some c
    then String.mk rest.dropLast else String.mk (c :: rest)

/-- C3 counterexample: on the line with key `k` and written value two
layers of double quotes around `x`, the code strips ALL surrounding quotes
and yields `x`, while the claim's one-layer stripping predicts a value that
keeps one layer of quotes. -/
theorem c3_counterexample :
    (processLine "k=\"\"x\"\"").map Prod.snd = some "x" ∧
      claimStripOne "\"\"x\"\"" = "\"x\"" ∧ ("x" : String) ≠ "\"x\"" :=
  ⟨by decide, by decide, by decide⟩

/-- The key the parser produces for a non-ignored line: the text before the
first `=` of the stripped line, trimmed and lower-cased. -/
def specKey (raw : String) : String :=
  String.mk ((listStrip isPyWs ((listStrip isPyWs raw.toList).takeWhile (· ≠ '='))).map
    Char.toLower)

/-- The value the parser produces for a non-ignored line (amended claim):
the text after the first `=`, trimmed, then ALL surrounding double-quote
characters removed, then ALL surrounding single-quote characters removed. -/
def specValue (raw : String) : String :=
  String.mk (listStrip (· = '\'') (listStrip (· = '"')
    (listStrip isPyWs (((listStrip isPyWs raw.toList).dropWhile (· ≠ '=')).tail))))

/-- C3 (amended): every non-ignored line is split at the first `=`; the key
is lower-cased and trimmed; the value is trimmed and then has ALL
surrounding double quotes stripped, then ALL surrounding single quotes —
not exactly one layer. -/
theorem c3_split_and_strip (raw : String) (h : lineIgnored raw = false) :
    processLine raw = some (specKey raw, specValue raw) := by
  unfold processLine
  rw [if_neg (by simp [h])]
  rfl

/-- Witness for the amended C3 on a concrete line. -/
theorem c3_split_and_strip_witness :
    processLine "k=\"\"x\"\"" = some (specKey "k=\"\"x\"\"", specValue "k=\"\"x\"\"") :=
  c3_split_and_strip "k=\"\"x\"\"" (by decide)

/-! ### C8: 500-line cap and early stop -/

/-- C8: the parser's result depends only on the first 500 lines, and once a
prefix of the lines has produced both a non-empty name and a non-empty
modid, any further lines leave the scan result unchanged. -/
theorem c8_line_cap_and_early_stop :
    (∀ (lines : List String) (wid : String),
      readModInfo lines wid = readModInfo (lines.take 500) wid) ∧
    (∀ pre suf : List String,
      (parseLines "" "" pre).1 ≠ "" → (parseLines "" "" pre).2 ≠ "" →
      parseLines "" "" (pre ++ suf) = parseLines "" "" pre) := by
  constructor
  · intro lines wid
    simp only [readModInfo, List.take_take, min_self]
  · intro pre suf hn hm
    exact parseLines_append pre suf "" "" hn hm

/-- Witness for C8's early stop at a concrete prefix and suffix. -/
theorem c8_line_cap_and_early_stop_witness :
    (parseLines "" "" ["name=a", "id=b"]).1 ≠ "" ∧
      (parseLines "" "" ["name=a", "id=b"]).2 ≠ "" ∧
      parseLines "" "" (["name=a", "id=b"] ++ ["name=z", "id=q"]) =
        parseLines "" "" ["name=a", "id=b"] :=
  ⟨by decide, by decide,
    c8_line_cap_and_early_stop.2 ["name=a", "id=b"] ["name=z", "id=q"]
      (by decide) (by decide)⟩

/-! ### Sorting lemmas -/

theorem SortDirs.get_set_same (d : SortDirs) (c : Col) (b : Bool) :
    (d.set c b).get c = b := by
  cases c <;> rfl

theorem SortDirs.set_set (d : SortDirs) (c : Col) (b b₂ : Bool) :
    (d.set c b).set c b₂ = d.set c b₂ := by
  cases c <;> rfl

theorem SortDirs.set_get (d : SortDirs) (c : Col) :
    d.set c (d.get c) = d := by
  cases c <;> rfl

/-- A successful fallible insertion permutes the inserted element into the
list. -/
theorem insertE_perm (rev : Bool) (key : Mod → SKey) (a : Mod) :
    ∀ l l₂ : List Mod, insertE rev key a l = .ok l₂ → l₂.Perm (a :: l) := by
  intro l
  induction l with
  | nil =>
    intro l₂ h
    unfold insertE at h
    injection h with h
    subst h
    exact List.Perm.refl _
  | cons b l ih =>
    intro l₂ h
    unfold insertE at h
    cases hcmp : (if rev then sKeyLt (key a) (key b) else sKeyLt (key b) (key a)) with
    | error e =>
      rw [hcmp] at h
      exact Except.noConfusion h
    | ok lt =>
      rw [hcmp] at h
      cases lt with
      | false =>
        injection h with h
        subst h
        exact List.Perm.refl _
      | true =>
        cases hins : insertE rev key a l with
        | error e =>
          rw [hins] at h
          exact Except.noConfusion h
        | ok l₃ =>
          rw [hins] at h
          injection h with h
          subst h
          exact ((ih l₃ hins).cons b).trans (List.Perm.swap a b l)

/-- A successful fallible sort permutes its input. -/
theorem sortE_perm (rev : Bool) (key : Mod → SKey) :
    ∀ l l₂ : List Mod, sortE rev key l = .ok l₂ → l₂.Perm l := by
  intro l
  induction l with
  | nil =>
    intro l₂ h
    unfold sortE at h
    injection h with h
    subst h
    exact List.Perm.refl _
  | cons a l ih =>
    intro l₂ h
    unfold sortE at h
    cases hs : sortE rev key l with
    | error e =>
      rw [hs] at h
      exact Except.noConfusion h
    | ok l₃ =>
      rw [hs] at h
      exact (insertE_perm rev key a l₃ l₂ h).trans ((ih l₃ hs).cons a)

/-- What a successful `_sort_by` does to each state component: the record
list and search text are untouched, the displayed rows are permuted, and
the column's remembered direction is toggled exactly when rows were
displayed. -/
theorem sortBy_ok_spec (col : Col) (st st₂ : AppState) (h : sortBy col st = .ok st₂) :
    st₂.mods = st.mods ∧ st₂.search = st.search ∧ st₂.rows.Perm st.rows ∧
      st₂.dirs = (if st.rows = [] then st.dirs
        else st.dirs.set col (!st.dirs.get col)) := by
  simp only [sortBy] at h
  by_cases he : st.rows = []
  · rw [if_pos he] at h
    injection h with h
    subst h
    exact ⟨rfl, rfl, List.Perm.refl _, by rw [if_pos he]⟩
  · rw [if_neg he] at h
    cases hs : sortE (st.dirs.get col) (sortKey col) st.rows with
    | error e =>
      rw [hs] at h
      exact Except.noConfusion h
    | ok rows₂ =>
      rw [hs] at h
      injection h with h
      subst h
      exact ⟨rfl, rfl, sortE_perm _ _ _ _ hs, by rw [if_neg he]⟩

instance {ε α : Type} [DecidableEq ε] [DecidableEq α] : DecidableEq (Except ε α) := fun a b =>
  match a, b with
  | .ok x, .ok y =>
    if h : x = y then isTrue (congrArg Except.ok h)
    else isFalse fun hc => h (Except.ok.inj hc)
  | .error x, .error y =>
    if h : x = y then isTrue (congrArg Except.error h)
    else isFalse fun hc => h (Except.error.inj hc)
  | .ok _, .error _ => isFalse fun hc => Except.noConfusion hc
  | .error _, .ok _ => isFalse fun hc => Except.noConfusion hc

/-! ### C4: sorting the same column twice -/

/-- A displayed row list used to refute C4. -/
def c4St : AppState :=
  ⟨[], "", [⟨"b", "x", "1"⟩, ⟨"a", "y", "2"⟩, ⟨"c", "z", "3"⟩], ⟨false, false, false⟩⟩

/-- The state after one Name sort of `c4St`: ascending by name. -/
def c4St₁ : AppState :=
  ⟨[], "", [⟨"a", "y", "2"⟩, ⟨"b", "x", "1"⟩, ⟨"c", "z", "3"⟩], ⟨true, false, false⟩⟩

/-- The state after a second Name sort: descending by name. -/
def c4St₂ : AppState :=
  ⟨[], "", [⟨"c", "z", "3"⟩, ⟨"b", "x", "1"⟩, ⟨"a", "y", "2"⟩], ⟨false, false, false⟩⟩

/-- C4 counterexample: two successive Name sorts of the rows b, a, c leave
them reverse-sorted (c, b, a), not in their original relative order. -/
theorem c4_counterexample :
    sortBy Col.name c4St = .ok c4St₁ ∧ sortBy Col.name c4St₁ = .ok c4St₂ ∧
      c4St₂.rows ≠ c4St.rows :=
  ⟨by decide, by decide, by decide⟩

/-- C4 (amended): two successive successful sorts on the same column
restore every column's remembered direction (the toggle flips back) and
keep the same multiset of rows, but do not in general restore the original
relative order. -/
theorem c4_sort_twice (col : Col) (st st₁ st₂ : AppState)
    (h1 : sortBy col st = .ok st₁) (h2 : sortBy col st₁ = .ok st₂) :
    st₂.dirs = st.dirs ∧ st₂.rows.Perm st.rows := by
  obtain ⟨m1, s1, p1, d1⟩ := sortBy_ok_spec col st st₁ h1
  obtain ⟨m2, s2, p2, d2⟩ := sortBy_ok_spec col st₁ st₂ h2
  refine ⟨?_, p2.trans p1⟩
  by_cases he : st.rows = []
  · have he1 : st₁.rows = [] := by
      rw [he] at p1
      exact p1.eq_nil
    rw [d2, d1, if_pos he, if_pos he1]
  · have he1 : st₁.rows ≠ [] := by
      intro hh
      rw [hh] at p1
      exact he p1.symm.eq_nil
  
    rw [d2, if_neg he1, d1, if_neg he, SortDirs.get_set_same, SortDirs.set_set,
      Bool.not_not, SortDirs.set_get]

/-- Witness for the amended C4 at the concrete states. -/
theorem c4_sort_twice_witness :
    c4St₂.dirs = c4St.dirs ∧ c4St₂.rows.Perm c4St.rows :=
  c4_sort_twice Col.name c4St c4St₁ c4St₂ (by decide) (by decide)

/-! ### C5: mixed numeric and non-numeric workshop ids -/

/-- Displayed rows whose workshopids produce an int key (10) and a str key
(abc) in the same sort pass. -/
def c5St : AppState :=
  ⟨[], "", [⟨"A", "a", "10"⟩, ⟨"B", "b", "abc"⟩], ⟨false, false, false⟩⟩

/-- C5: with one numeric and one non-numeric workshopid in the displayed
rows, the WorkshopID sort pass compares an int key with a str key, which
raises `TypeError` — the pass aborts instead of completing with string
comparison. -/
theorem c5_mixed_keys_raise : sortBy Col.workshopid c5St = .error () := rfl

/-! ### C10: sorting an empty row list -/

/-- C10: activating a column sort while no rows are displayed changes
nothing — the state, including every column's remembered sort direction, is
returned unchanged. -/
theorem c10_empty_sort_noop (col : Col) (st : AppState) (h : st.rows = []) :
    sortBy col st = .ok st := by
  simp only [sortBy]
  rw [if_pos h]

/-- Witness for C10 at a concrete empty state. -/
theorem c10_empty_sort_noop_witness :
    sortBy Col.modid ⟨[⟨"A", "a", "1"⟩], "zzz", [], ⟨true, false, true⟩⟩ =
      .ok ⟨[⟨"A", "a", "1"⟩], "zzz", [], ⟨true, false, true⟩⟩ :=
  c10_empty_sort_noop Col.modid _ rfl

/-! ### C6: all-numeric workshop ids sort numerically -/

/-- The integer sort key of a row whose workshopid parses (0 otherwise). -/
def rowInt (r : Mod) : Int := (pyInt r.workshopid).getD 0

/-- Non-decreasing integer order on rows, the order C6 asserts. -/
def rowIntLE (a b : Mod) : Prop := rowInt a ≤ rowInt b

theorem sortKey_int (r : Mod) (i : Int) (h : pyInt r.workshopid = some i) :
    sortKey Col.workshopid r = .int i := by
  simp [sortKey, h]

theorem rowInt_eq (r : Mod) (i : Int) (h : pyInt r.workshopid = some i) :
    rowInt r = i := by
  simp [rowInt, h]
/-- Inserting a row with a numeric key into an all-numeric-key list
succeeds and preserves sortedness by integer value. -/
theorem insertE_int (a : Mod) (ia : Int) (hia : pyInt a.workshopid = some ia) :
    ∀ l : List Mod, (∀ b ∈ l, (pyInt b.workshopid).isSome = true) →
      ∃ l₂, insertE false (sortKey Col.workshopid) a l = .ok l₂ ∧
        (l.Pairwise rowIntLE → l₂.Pairwise rowIntLE) := by
  intro l
  induction l with
  | nil =>
    intro _
    exact ⟨[a], rfl, fun _ => List.pairwise_singleton rowIntLE a⟩
  | cons b l ih =>
    intro hl
    obtain ⟨ib, hib⟩ := Option.isSome_iff_exists.mp (hl b (List.mem_cons_self b l))
    obtain ⟨l₂, hins, hsort⟩ := ih fun x hx => hl x (List.mem_cons_of_mem b hx)
    by_cases hlt : ib < ia
    · have hcmp : sKeyLt (sortKey Col.workshopid b) (sortKey Col.workshopid a) = .ok true := by
        rw [sortKey_int b ib hib, sortKey_int a ia hia]
        simp [sKeyLt, hlt]
      refine ⟨b :: l₂, ?_, ?_⟩
      · simp only [insertE]
        rw [if_neg Bool.false_ne_true, hcmp, hins]
      · intro hp
        obtain ⟨hbl, hpl⟩ := List.pairwise_cons.mp hp
        refine List.pairwise_cons.mpr ⟨?_, hsort hpl⟩
        intro x hx
        have hx₂ : x ∈ a :: l := (insertE_perm false (sortKey Col.workshopid) a l l₂ hins).subset hx
        cases List.mem_cons.mp hx₂ with
        | inl hxa =>
          subst hxa
          show rowInt b ≤ rowInt x
          rw [rowInt_eq b ib hib, rowInt_eq x ia hia]
          exact le_of_lt hlt
        | inr hxl => exact hbl x hxl
    · have hcmp : sKeyLt (sortKey Col.workshopid b) (sortKey Col.workshopid a) = .ok false := by
        rw [sortKey_int b ib hib, sortKey_int a ia hia]
        simp [sKeyLt, hlt]
      refine ⟨a :: b :: l, ?_, ?_⟩
      · simp only [insertE]
        rw [if_neg Bool.false_ne_true, hcmp]
      · intro hp
        have hab : rowInt a ≤ rowInt b := by
          rw [rowInt_eq a ia hia, rowInt_eq b ib hib]
          exact Int.not_lt.mp hlt
        obtain ⟨hbl, hpl⟩ := List.pairwise_cons.mp hp
        refine List.pairwise_cons.mpr ⟨?_, hp⟩
        intro x hx
        cases List.mem_cons.mp hx with
        | inl hxb =>
          subst hxb
          exact hab
        | inr hxl =>
          show rowInt a ≤ rowInt x
          exact le_trans hab (hbl x hxl)

/-- Sorting rows whose workshopids all parse as integers succeeds and
produces a list sorted by integer value. -/
theorem sortE_int :
    ∀ l : List Mod, (∀ b ∈ l, (pyInt b.workshopid).isSome = true) →
      ∃ l₂, sortE false (sortKey Col.workshopid) l = .ok l₂ ∧ l₂.Pairwise rowIntLE := by
  intro l
  induction l with
  | nil => exact fun _ => ⟨[], rfl, List.Pairwise.nil⟩
  | cons a l ih =>
    intro h
    obtain ⟨l₃, hs, hp⟩ := ih fun b hb => h b (List.mem_cons_of_mem a hb)
    obtain ⟨ia, hia⟩ := Option.isSome_iff_exists.mp (h a (List.mem_cons_self a l))
    have h3 : ∀ b ∈ l₃, (pyInt b.workshopid).isSome = true := fun b hb =>
      h b (List.mem_cons_of_mem a ((sortE_perm false (sortKey Col.workshopid) l l₃ hs).subset hb))
    obtain ⟨l₂, hins, hsort⟩ := insertE_int a ia hia l₃ h3
    refine ⟨l₂, ?_, hsort hp⟩
    simp only [sortE]
    rw [hs]
    exact hins

/-- C6: when every displayed workshopid parses as an integer and the
remembered WorkshopID direction is ascending, the WorkshopID sort succeeds
and orders the rows by integer value (not lexicographically). -/
theorem c6_numeric_sort (st : AppState)
    (h : ∀ r ∈ st.rows, (pyInt r.workshopid).isSome = true)
    (hd : st.dirs.workshopid = false) :
    ∃ st₂, sortBy Col.workshopid st = .ok st₂ ∧
      st₂.rows.Pairwise rowIntLE ∧ st₂.rows.Perm st.rows := by
  by_cases he : st.rows = []
  · refine ⟨st, ?_, ?_, List.Perm.refl _⟩
    · simp only [sortBy]
      rw [if_pos he]
    · rw [he]
      exact List.Pairwise.nil
  · simp only [sortBy]
    rw [if_neg he]
    have hrev : st.dirs.get Col.workshopid = false := hd
    rw [hrev]
    obtain ⟨l₂, hs, hp⟩ := sortE_int st.rows h
    rw [hs]
    exact ⟨_, rfl, hp, (sortE_perm _ _ _ _ hs).trans (List.Perm.refl _)⟩

/-- Rows whose workshopids are 10, 2, 1 in display order. -/
def c6St : AppState :=
  ⟨[], "", [⟨"A", "a", "10"⟩, ⟨"B", "b", "2"⟩, ⟨"C", "c", "1"⟩], ⟨false, false, false⟩⟩

/-- The state after the ascending WorkshopID sort: rows 1, 2, 10. -/
def c6St₂ : AppState :=
  ⟨[], "", [⟨"C", "c", "1"⟩, ⟨"B", "b", "2"⟩, ⟨"A", "a", "10"⟩], ⟨false, false, true⟩⟩

/-- Witness for C6: workshopids 10, 2, 1 all parse, the sort succeeds
sorted and permuted, and concretely yields 1, 2, 10 — the numeric order,
not the lexicographic order 1, 10, 2. -/
theorem c6_numeric_sort_witness :
    (∀ r ∈ c6St.rows, (pyInt r.workshopid).isSome = true) ∧
      (∃ st₂, sortBy Col.workshopid c6St = .ok st₂ ∧
        st₂.rows.Pairwise rowIntLE ∧ st₂.rows.Perm c6St.rows) ∧
      sortBy Col.workshopid c6St = .ok c6St₂ :=
  ⟨by decide, c6_numeric_sort c6St (by decide) rfl, by decide⟩

/-! ### C7: the search filter -/

/-- The filter predicate holds exactly when the query is empty or occurs as
a substring of one of the three lower-cased fields. -/
theorem modMatches_iff (q : String) (m : Mod) :
    modMatches q m = true ↔
      (q = "" ∨ q.toList <:+: (pyLower m.name).toList ∨
        q.toList <:+: (pyLower m.modid).toList ∨
        q.toList <:+: (pyLower m.workshopid).toList) := by
  simp only [modMatches, pyIn, Bool.or_eq_true, decide_eq_true_eq]
  tauto

/-- C7: the filter keeps exactly the records in which the normalised query
is a substring of the lower-cased name, modid or workshopid; the empty
query keeps every record; and the surviving records keep their scan order
(the output is a sublist of the input). -/
theorem c7_filter_spec (search : String) (mods : List Mod) :
    (∀ m, m ∈ applyFilter search mods ↔
      m ∈ mods ∧ (normQuery search = "" ∨
        (normQuery search).toList <:+: (pyLower m.name).toList ∨
        (normQuery search).toList <:+: (pyLower m.modid).toList ∨
        (normQuery search).toList <:+: (pyLower m.workshopid).toList)) ∧
    applyFilter "" mods = mods ∧
    (applyFilter search mods).Sublist mods := by
  refine ⟨?_, ?_, List.filter_sublist mods⟩
  · intro m
    simp only [applyFilter, List.mem_filter]
    exact and_congr_right fun _ => modMatches_iff (normQuery search) m
  · have hq : normQuery "" = "" := by decide
    simp only [applyFilter, hq]
    apply List.filter_eq_self.mpr
    intro a _
    simp [modMatches]

/-- Witness for C7 on a concrete query and record list. -/
theorem c7_filter_spec_witness :
    applyFilter "" [(⟨"Alpha", "a1", "7"⟩ : Mod)] = [⟨"Alpha", "a1", "7"⟩] :=
  (c7_filter_spec "" [⟨"Alpha", "a1", "7"⟩]).2.1

/-! ### C9: CSV export uses the same filter, independent of sorting -/

/-- C9: the list comprehension in `export_csv` computes exactly the record
list `_apply_filter` displays; the exported rows are the header followed by
the filtered records in scan order; and a successful column sort leaves the
export output unchanged (the export ignores the displayed order). -/
theorem c9_export_matches_filter :
    (∀ (search : String) (mods : List Mod),
      exportFilteredList search mods = applyFilter search mods) ∧
    (∀ st : AppState, st.mods ≠ [] →
      exportCsv st = some (["Name", "ModID", "WorkshopID"] ::
        (applyFilter st.search st.mods).map (fun m => [m.name, m.modid, m.workshopid]))) ∧
    (∀ (col : Col) (st st₂ : AppState), sortBy col st = .ok st₂ →
      exportCsv st₂ = exportCsv st) := by
  refine ⟨fun search mods => rfl, ?_, ?_⟩
  · intro st h
    simp only [exportCsv]
    rw [if_neg h]
    rfl
  · intro col st st₂ h
    obtain ⟨hm, hs, -, -⟩ := sortBy_ok_spec col st st₂ h
    simp only [exportCsv, hm, hs]

/-- A state whose records contain one `foo` match, used to witness C9. -/
def c9St : AppState :=
  ⟨[⟨"Foo Mod", "f", "1"⟩, ⟨"Bar", "b", "2"⟩], "foo", [], ⟨false, false, false⟩⟩

/-- Witness for C9 at a concrete state. -/
theorem c9_export_matches_filter_witness :
    exportCsv c9St = some (["Name", "ModID", "WorkshopID"] ::
      (applyFilter c9St.search c9St.mods).map (fun m => [m.name, m.modid, m.workshopid])) :=
  c9_export_matches_filter.2.1 c9St (by decide)

end PZ
